import Mathlib

/-!
Verification of the tracking / re-identification / payment-deduplication core
of the AI-Video-Analysis-System repository.

The Python sources are embedded shallowly:
* `src/detection_logic.py`   → the intra-video tracker (`detect_persons`);
* `src/payment_detection_logic.py` → the payment event deduplicator
  (`detect_payments`);
* `src/identification_logic.py` → the cross-session matcher in pure identify
  mode (`identify_persons`);
* `src/mixed_detection_logic.py` → the mixed detect-and-identify mode
  (`mixed_detection_identification`).

Machine floats of the source are embedded as `ℚ` (and, where only order
matters, as order-isomorphic scaled integers); Python dictionaries (which
iterate in insertion order) are embedded as insertion-ordered association
lists; the frame stream is a list.  Euclidean distances, which the source
obtains with a square root, are embedded as squared distances compared against
squared thresholds: the square root is strictly monotone on nonnegative reals,
so every comparison in the source is equivalent to the corresponding
comparison between squares.
-/

namespace AVAS

/-! ## Geometry (src/detection_logic.py, helpers) -/

/-- A bounding box `(x1, y1, x2, y2)` in integer pixel coordinates, exactly the
tuple the detector hands to the tracker. -/
structure Box where
  x1 : ℤ
  y1 : ℤ
  x2 : ℤ
  y2 : ℤ
deriving DecidableEq, Repr

/-- Four times the squared center distance, embedding `box_distance` of
`src/detection_logic.py` (which returns
`sqrt((cx1-cx2)^2 + (cy1-cy2)^2)` with centers `(x1+x2)/2`, `(y1+y2)/2`).
We scale the centers by 2 (so they stay integral) and carry the squared value:
both the square root and the scaling by 4 are strictly monotone, so every
comparison the source performs on its distances is equivalent to the same
comparison on these values; thresholds are scaled accordingly. -/
def box_distance_sq4 (box1 box2 : Box) : ℤ :=
  let cx1 := box1.x1 + box1.x2
  let cy1 := box1.y1 + box1.y2
  let cx2 := box2.x1 + box2.x2
  let cy2 := box2.y1 + box2.y2
  (cx1 - cx2) * (cx1 - cx2) + (cy1 - cy2) * (cy1 - cy2)

/-- First-match lookup in an insertion-ordered association list, the embedding
of a Python dictionary read `d[k]` / `k in d`. -/
def lookupKey {α β : Type} [DecidableEq α] : List (α × β) → α → Option β
  | [], _ => none
  | kv :: rest, k => if kv.1 = k then some kv.2 else lookupKey rest k

/-! ## Intra-video tracker (src/detection_logic.py, detect_persons) -/

/-- One entry of `person_registry` in `detect_persons`:
`{"box": ..., "frame_count": ..., "last_seen": ...}`. -/
structure TrackData where
  box : Box
  frame_count : ℕ
  last_seen : ℕ
deriving DecidableEq, Repr

/-- The live track registry, a Python dict `{person_id: TrackData}` embedded as
an insertion-ordered association list (ids are embedded as `ℕ`; the source
draws fresh UUID-based strings). -/
abbrev TrackRegistry := List (ℕ × TrackData)

/-- The two tracker sliders of `detect_persons` (defaults 50 px and 30
frames); the distance is stored scaled like `box_distance_sq4`, so the
default 50 px becomes `(2 * 50)^2 = 10000`. -/
structure TrackerConfig where
  max_distance_sq4 : ℤ
  max_frame_gap : ℕ
deriving Repr

def defaultTrackerConfig : TrackerConfig := ⟨10000, 30⟩

/-- Loop body of the best-match scan of `detect_persons` (lines 142–147):
keep the strictly closest track among those with
`frame_counter - last_seen ≤ max_frame_gap`; `min_distance` starts at
infinity, embedded by the `none` accumulator. -/
def best_match_step (cfg : TrackerConfig) (frame_counter : ℕ) (current_box : Box)
    (acc : Option (ℕ × ℤ)) (pd : ℕ × TrackData) : Option (ℕ × ℤ) :=
  let distance := box_distance_sq4 current_box pd.2.box
  let gap_ok := (frame_counter : ℤ) - (pd.2.last_seen : ℤ) ≤ (cfg.max_frame_gap : ℤ)
  match acc with
  | none => if gap_ok then some (pd.1, distance) else none
  | some best =>
      if distance < best.2 ∧ gap_ok then some (pd.1, distance) else some best

/-- The best-match loop of `detect_persons` (lines 138–147). -/
def best_match_scan (cfg : TrackerConfig) (frame_counter : ℕ) (current_box : Box)
    (registry : TrackRegistry) : Option (ℕ × ℤ) :=
  registry.foldl (best_match_step cfg frame_counter current_box) none

/-- Loop body of Python `min` with a key function: keep the first element
attaining the strict minimum. -/
def closest_step (current_box : Box) (acc : Option (ℕ × ℤ)) (pd : ℕ × TrackData) :
    Option (ℕ × ℤ) :=
  let distance := box_distance_sq4 current_box pd.2.box
  match acc with
  | none => some (pd.1, distance)
  | some best => if distance < best.2 then some (pd.1, distance) else some best

/-- `min(person_registry.keys(), key=lambda pid: box_distance(...))`
(line 191): the first key attaining the minimum distance, with no frame-gap
condition. -/
def closest_track (current_box : Box) (registry : TrackRegistry) : Option ℕ :=
  (registry.foldl (closest_step current_box) none).map Prod.fst

/-- In-place update of a matched track (lines 153–155 / 186–188 / 194–196):
new box, incremented appearance count, refreshed `last_seen`. -/
def update_track (registry : TrackRegistry) (person_id : ℕ) (current_box : Box)
    (frame_counter : ℕ) : TrackRegistry :=
  registry.map fun pd =>
    if pd.1 = person_id then
      (pd.1, { box := current_box, frame_count := pd.2.frame_count + 1,
               last_seen := frame_counter })
    else pd

/-- Tracker state: the registry plus the supply of fresh ids (the source draws
UUIDs; a counter embeds their freshness). -/
structure TrackerState where
  registry : TrackRegistry
  next_id : ℕ
deriving DecidableEq, Repr

/-- The per-detection assignment of `detect_persons` (lines 138–197):
match within threshold, else create while `len(person_registry) < 6`, else
fall back to the best frame-gap-eligible track, else to the globally closest
track.  The final `new_track` arm is unreachable: `closest_track` returns
`none` only on an empty registry, whose length `0 < 6`. -/
def detect_persons_assign (cfg : TrackerConfig) (frame_counter : ℕ) (current_box : Box)
    (st : TrackerState) : ℕ × TrackerState :=
  let new_track : ℕ × TrackerState :=
    (st.next_id,
     { registry := st.registry ++ [(st.next_id, ⟨current_box, 1, frame_counter⟩)],
       next_id := st.next_id + 1 })
  let assign : ℕ → ℕ × TrackerState := fun person_id =>
    (person_id,
     { st with registry := update_track st.registry person_id current_box frame_counter })
  match best_match_scan cfg frame_counter current_box st.registry with
  | some best =>
      if best.2 ≤ cfg.max_distance_sq4 then assign best.1
      else if st.registry.length < 6 then new_track
      else assign best.1
  | none =>
      if st.registry.length < 6 then new_track
      else
        match closest_track current_box st.registry with
        | some person_id => assign person_id
        | none => new_track

/-- The frame loop of `detect_persons`: each frame yields the person-class
boxes of that frame; `frame_counter` increments once per frame. -/
def detect_persons_frames (cfg : TrackerConfig) (frames : List (List Box)) : TrackerState :=
  (frames.foldl
    (fun (acc : TrackerState × ℕ) frame_boxes =>
      (frame_boxes.foldl
        (fun st b => (detect_persons_assign cfg acc.2 b st).2) acc.1,
       acc.2 + 1))
    (⟨[], 0⟩, 0)).1

/-! ### Registry-size invariant -/

lemma update_track_length (registry : TrackRegistry) (person_id : ℕ) (b : Box)
    (fc : ℕ) : (update_track registry person_id b fc).length = registry.length := by
  simp [update_track]

lemma foldl_isSome_of_step {α β : Type} (f : Option α → β → Option α)
    (hf : ∀ a x, (f (some a) x).isSome) :
    ∀ (l : List β) (a : α), (l.foldl f (some a)).isSome := by
  intro l
  induction l with
  | nil => intro a; rfl
  | cons x rest ih =>
      intro a
      have hx := hf a x
      cases hfa : f (some a) x with
      | none => simp [hfa] at hx
      | some a2 => simpa [List.foldl, hfa] using ih a2

lemma closest_track_eq_none (b : Box) (registry : TrackRegistry)
    (h : closest_track b registry = none) : registry = [] := by
  cases registry with
  | nil => rfl
  | cons kv rest =>
      exfalso
      unfold closest_track at h
      rw [Option.map_eq_none'] at h
      have hsome := foldl_isSome_of_step (closest_step b)
        (by
          intro a x
          unfold closest_step
          dsimp only
          split <;> rfl)
        rest (kv.1, box_distance_sq4 b kv.2.box)
      rw [List.foldl_cons] at h
      simp only [closest_step] at h
      rw [h] at hsome
      simp at hsome

lemma detect_persons_assign_length_le (cfg : TrackerConfig) (fc : ℕ) (b : Box)
    (st : TrackerState) (h : st.registry.length ≤ 6) :
    ((detect_persons_assign cfg fc b st).2).registry.length ≤ 6 := by
  unfold detect_persons_assign
  cases hbm : best_match_scan cfg fc b st.registry with
  | some best =>
      by_cases h1 : best.2 ≤ cfg.max_distance_sq4
      · simp [h1, update_track_length, h]
      · by_cases h2 : st.registry.length < 6
        · simp [h1, h2]
          omega
        · simp [h1, h2, update_track_length, h]
  | none =>
      by_cases h2 : st.registry.length < 6
      · simp [h2]
        omega
      · cases hct : closest_track b st.registry with
        | some pid => simp [h2, hct, update_track_length, h]
        | none =>
            have hnil := closest_track_eq_none b st.registry hct
            simp [h2, hct, hnil]

lemma foldl_assign_length_le (cfg : TrackerConfig) (fc : ℕ) (boxes : List Box)
    (st : TrackerState) (h : st.registry.length ≤ 6) :
    (boxes.foldl (fun st b => (detect_persons_assign cfg fc b st).2) st).registry.length ≤ 6 := by
  induction boxes generalizing st with
  | nil => exact h
  | cons b rest ih =>
      exact ih _ (detect_persons_assign_length_le cfg fc b st h)

lemma detect_persons_frames_aux_length_le (cfg : TrackerConfig)
    (frames : List (List Box)) (acc : TrackerState × ℕ)
    (h : acc.1.registry.length ≤ 6) :
    (frames.foldl
      (fun (acc : TrackerState × ℕ) frame_boxes =>
        (frame_boxes.foldl
          (fun st b => (detect_persons_assign cfg acc.2 b st).2) acc.1,
         acc.2 + 1))
      acc).1.registry.length ≤ 6 := by
  induction frames generalizing acc with
  | nil => exact h
  | cons fb rest ih =>
      exact ih _ (foldl_assign_length_le cfg acc.2 fb acc.1 h)

/-- Claim C1: for every sequence of person-class detections fed to the
intra-video tracker, the number of tracks in the registry never exceeds 6 —
a new track is created only when `len(person_registry) < 6`, so the registry
size is bounded by 6 after every assignment step. -/
theorem C1_track_registry_cap (cfg : TrackerConfig) (frames : List (List Box)) :
    (detect_persons_frames cfg frames).registry.length ≤ 6 := by
  unfold detect_persons_frames
  exact detect_persons_frames_aux_length_le cfg frames (⟨[], 0⟩, 0) (by simp)

/-! ### Forced assignment at the cap -/

lemma update_track_keys (registry : TrackRegistry) (person_id : ℕ) (b : Box)
    (fc : ℕ) :
    (update_track registry person_id b fc).map Prod.fst = registry.map Prod.fst := by
  induction registry with
  | nil => rfl
  | cons kv rest ih =>
      simp only [update_track, List.map_cons] at ih ⊢
      by_cases h : kv.1 = person_id <;> simp [h, ih]

lemma foldl_result_mem {β : Type} (f : Option (ℕ × ℤ) → β → Option (ℕ × ℤ))
    (key : β → ℕ)
    (hf : ∀ acc x, f acc x = acc ∨ ∃ q, f acc x = some (key x, q)) :
    ∀ (l : List β) (acc : Option (ℕ × ℤ)) (best : ℕ × ℤ),
      l.foldl f acc = some best → acc = some best ∨ best.1 ∈ l.map key := by
  intro l
  induction l with
  | nil => intro acc best h; exact Or.inl h
  | cons x rest ih =>
      intro acc best h
      rw [List.foldl_cons] at h
      rcases ih (f acc x) best h with h1 | h1
      · rcases hf acc x with h2 | ⟨q, h2⟩
        · exact Or.inl (h2 ▸ h1)
        · rw [h2] at h1
          rw [Option.some_inj] at h1
          right
          rw [List.map_cons, ← h1]
          exact List.mem_cons_self _ _
      · right
        rw [List.map_cons]
        exact List.mem_cons_of_mem _ h1

lemma best_match_scan_mem (cfg : TrackerConfig) (fc : ℕ) (b : Box)
    (registry : TrackRegistry) (best : ℕ × ℤ)
    (h : best_match_scan cfg fc b registry = some best) :
    best.1 ∈ registry.map Prod.fst := by
  rcases foldl_result_mem (best_match_step cfg fc b) Prod.fst
    (by
      intro acc x
      unfold best_match_step
      cases acc with
      | none =>
          dsimp only
          split
          · exact Or.inr ⟨_, rfl⟩
          · exact Or.inl rfl
      | some a =>
          dsimp only
          split
          · exact Or.inr ⟨_, rfl⟩
          · exact Or.inl rfl)
    registry none best h with h1 | h1
  · exact absurd h1 (by simp)
  · exact h1

lemma closest_track_mem (b : Box) (registry : TrackRegistry) (pid : ℕ)
    (h : closest_track b registry = some pid) :
    pid ∈ registry.map Prod.fst := by
  unfold closest_track at h
  rw [Option.map_eq_some'] at h
  rcases h with ⟨best, hfold, hfst⟩
  have := foldl_result_mem (closest_step b) Prod.fst
    (by
      intro acc x
      unfold closest_step
      cases acc with
      | none => exact Or.inr ⟨_, rfl⟩
      | some a =>
          dsimp only
          split
          · exact Or.inr ⟨_, rfl⟩
          · exact Or.inl rfl)
    registry none best hfold
  rcases this with h1 | h1
  · exact absurd h1 (by simp)
  · exact hfst ▸ h1

/-- The track the at-cap fallback of `detect_persons` actually picks: the
closest track among those seen within the frame gap when one exists, and the
globally closest track otherwise. -/
def forced_target (cfg : TrackerConfig) (frame_counter : ℕ) (current_box : Box)
    (registry : TrackRegistry) : Option ℕ :=
  match best_match_scan cfg frame_counter current_box registry with
  | some best => some best.1
  | none => closest_track current_box registry

/-- A degenerate box whose center is `(cx, 0)`. -/
def c4Box (cx : ℤ) : Box := ⟨cx, 0, cx, 0⟩

/-- A registry at the cap: track 0 is exactly at the incoming detection's
center but stale (last seen 100 frames ago), tracks 1–5 are fresh but far. -/
def c4State : TrackerState :=
  { registry := [(0, ⟨c4Box 0, 1, 0⟩), (1, ⟨c4Box 1000, 1, 99⟩),
                 (2, ⟨c4Box 1100, 1, 99⟩), (3, ⟨c4Box 1200, 1, 99⟩),
                 (4, ⟨c4Box 1300, 1, 99⟩), (5, ⟨c4Box 1400, 1, 99⟩)],
    next_id := 6 }

/-- Claim C4 is false as stated: with the registry at the cap and no track
within the proximity threshold, the incoming detection at center `(0,0)` is
assigned to track 1 (the closest track seen within the frame gap, at distance
1000), not to the single closest existing track, which is the stale track 0 at
distance 0. -/
theorem C4_counterexample :
    best_match_scan defaultTrackerConfig 100 (c4Box 0) c4State.registry
      = some (1, 4000000) ∧
    ¬ (4000000 : ℤ) ≤ defaultTrackerConfig.max_distance_sq4 ∧
    (detect_persons_assign defaultTrackerConfig 100 (c4Box 0) c4State).1 = 1 ∧
    closest_track (c4Box 0) c4State.registry = some 0 := by
  decide

/-- Claim C4, amended: when the registry is at the cap of 6 and no track lies
within the proximity threshold, the detection is assigned to the closest
track among those seen within the frame gap when any exists, and otherwise to
the closest existing track overall; exactly one track is returned per
detection, that track is in the registry, and no 7th track is created. -/
theorem C4_forced_assignment (cfg : TrackerConfig) (fc : ℕ) (b : Box)
    (st : TrackerState) (hcap : st.registry.length = 6)
    (hfar : ∀ best, best_match_scan cfg fc b st.registry = some best →
      ¬ best.2 ≤ cfg.max_distance_sq4) :
    some (detect_persons_assign cfg fc b st).1 = forced_target cfg fc b st.registry ∧
    ((detect_persons_assign cfg fc b st).2).registry.length = 6 ∧
    (detect_persons_assign cfg fc b st).1 ∈
      ((detect_persons_assign cfg fc b st).2).registry.map Prod.fst := by
  have hlt : ¬ st.registry.length < 6 := by omega
  unfold detect_persons_assign forced_target
  cases hbm : best_match_scan cfg fc b st.registry with
  | some best =>
      have h1 := hfar best hbm
      simp only [h1, hlt, if_false]
      refine ⟨trivial, ?_, ?_⟩
      · simp [update_track_length, hcap]
      · rw [update_track_keys]
        exact best_match_scan_mem cfg fc b st.registry best hbm
  | none =>
      cases hct : closest_track b st.registry with
      | none =>
          exfalso
          have hnil := closest_track_eq_none b st.registry hct
          rw [hnil] at hcap
          simp at hcap
      | some pid =>
          simp only [hlt, if_false, hct]
          refine ⟨trivial, ?_, ?_⟩
          · simp [update_track_length, hcap]
          · rw [update_track_keys]
            exact closest_track_mem b st.registry pid hct

/-- Witness for `C4_forced_assignment` at the concrete at-cap registry. -/
theorem C4_forced_assignment_witness :
    some (detect_persons_assign defaultTrackerConfig 100 (c4Box 0) c4State).1 =
      forced_target defaultTrackerConfig 100 (c4Box 0) c4State.registry ∧
    ((detect_persons_assign defaultTrackerConfig 100 (c4Box 0) c4State).2).registry.length = 6 ∧
    (detect_persons_assign defaultTrackerConfig 100 (c4Box 0) c4State).1 ∈
      ((detect_persons_assign defaultTrackerConfig 100 (c4Box 0) c4State).2).registry.map Prod.fst :=
  C4_forced_assignment defaultTrackerConfig 100 (c4Box 0) c4State (by decide)
    (by
      intro best hb
      have hbm : best_match_scan defaultTrackerConfig 100 (c4Box 0) c4State.registry
          = some (1, 4000000) := by decide
      rw [hbm, Option.some_inj] at hb
      rw [← hb]
      decide)

/-! ## Payment event deduplicator (src/payment_detection_logic.py,
detect_payments) -/

/-- Payment kinds; `CLASS_IDS = {"cash": 1, "card": 2}` maps class ids to
these. -/
inductive PayKind where
  | cash
  | card
deriving DecidableEq, Repr

/-- A raw post-NMS detection handed to the per-detection loop of
`detect_payments` (lines 119–123): class id, the frame number reported by the
capture, a confidence (a machine float, embedded as `ℚ`), and the bounding
box. -/
structure RawDet where
  cls_id : ℕ
  frame : ℕ
  confidence : ℚ
  x1 : ℤ
  y1 : ℤ
  x2 : ℤ
  y2 : ℤ
deriving DecidableEq, Repr

/-- `center = (x1 + x2) // 2, (y1 + y2) // 2` (line 129), Python floor
division. -/
def RawDet.center (d : RawDet) : ℤ × ℤ :=
  ((d.x1 + d.x2).fdiv 2, (d.y1 + d.y2).fdiv 2)

/-- One logged payment event (lines 152–157 / 166–171). -/
structure PayEvent where
  kind : PayKind
  frame : ℕ
  confidence : ℚ
  center : ℤ × ℤ
deriving DecidableEq, Repr

/-- The mutable state of the online pass of `detect_payments` (lines 45–51):
`payment_type`, the two first-detected flags, the per-kind counters,
`tracked_centroids` (keyed by the string `f"{x}_{y}"`, which determines the
center pair uniquely, so the pair embeds the key), and `payment_events`. -/
structure PayState where
  payment_type : Option PayKind
  first_cash_detected : Bool
  first_card_detected : Bool
  cash_payments : ℕ
  card_payments : ℕ
  tracked_centroids : List ((ℤ × ℤ) × (ℕ × ℕ × ℚ))
  payment_events : List PayEvent
deriving DecidableEq, Repr

def initPayState : PayState := ⟨none, false, false, 0, 0, [], []⟩

/-- Python dict assignment `d[k] = v`: replace in place when the key is
present, append otherwise. -/
def dictInsert {α β : Type} [DecidableEq α] (l : List (α × β)) (k : α) (v : β) :
    List (α × β) :=
  if (lookupKey l k).isSome then
    l.map fun kv => if kv.1 = k then (k, v) else kv
  else l ++ [(k, v)]

/-- One iteration of the per-detection loop of `detect_payments`
(lines 119–171): gate on class id and the 0.4 confidence floor, drop
continuations of a recently tracked centroid (same class, frame gap `< 15`,
confidence difference `< 0.1`), otherwise re-anchor the centroid, bump the
counter of the kind, set the first-detected flag and label, and log the
event.  The float literals 0.4 and 0.1 are the exact rationals `mkRat 2 5`
and `mkRat 1 10`. -/
def detect_payments_step (st : PayState) (d : RawDet) : PayState :=
  if d.cls_id ∉ ([1, 2] : List ℕ) ∨ d.confidence < mkRat 2 5 then st
  else
    let register : PayState :=
      let tracked := dictInsert st.tracked_centroids d.center
        (d.cls_id, d.frame, d.confidence)
      if d.cls_id = 1 then
        { payment_type :=
            if ¬ st.first_cash_detected = true ∧ st.payment_type = none then
              some PayKind.cash
            else st.payment_type,
          first_cash_detected := true,
          first_card_detected := st.first_card_detected,
          cash_payments := st.cash_payments + 1,
          card_payments := st.card_payments,
          tracked_centroids := tracked,
          payment_events :=
            st.payment_events ++ [⟨PayKind.cash, d.frame, d.confidence, d.center⟩] }
      else
        { payment_type :=
            if ¬ st.first_card_detected = true ∧ st.payment_type = none then
              some PayKind.card
            else st.payment_type,
          first_cash_detected := st.first_cash_detected,
          first_card_detected := true,
          cash_payments := st.cash_payments,
          card_payments := st.card_payments + 1,
          tracked_centroids := tracked,
          payment_events :=
            st.payment_events ++ [⟨PayKind.card, d.frame, d.confidence, d.center⟩] }
    match lookupKey st.tracked_centroids d.center with
    | some prev =>
        if prev.1 = d.cls_id ∧ (d.frame : ℤ) - (prev.2.1 : ℤ) < 15 ∧
            |d.confidence - prev.2.2| < mkRat 1 10 then st
        else register
    | none => register

/-- The duplicate test of the offline merge pass (lines 211–214): same kind,
frame numbers within 30, centers within 50 px on both axes (Python `abs` on
integers is `Int.natAbs`). -/
def is_duplicate_of (event existing : PayEvent) : Bool :=
  decide (event.kind = existing.kind) &&
    decide (((event.frame : ℤ) - (existing.frame : ℤ)).natAbs < 30) &&
    decide ((event.center.1 - existing.center.1).natAbs < 50) &&
    decide ((event.center.2 - existing.center.2).natAbs < 50)

/-- The offline merge pass of `detect_payments` (lines 207–218): an event
survives iff it is not a duplicate of any previously surviving event. -/
def filtered_events (events : List PayEvent) : List PayEvent :=
  events.foldl
    (fun filtered event =>
      if filtered.any (fun existing => is_duplicate_of event existing) then filtered
      else filtered ++ [event])
    []

/-- Python `min(filtered_events, key=lambda x: x["frame"])` (line 226): the
first event attaining the smallest frame number. -/
def earliest_event : List PayEvent → Option PayEvent
  | [] => none
  | e :: rest =>
      some (rest.foldl (fun best x => if x.frame < best.frame then x else best) e)

/-- What `detect_payments` reports at the end (lines 204–231 and the returned
dict), together with the surviving events of the merge pass. -/
structure PayResult where
  total_payments : ℕ
  cash_payments : ℕ
  card_payments : ℕ
  payment_type : Option PayKind
  surviving_events : List PayEvent
deriving DecidableEq, Repr

/-- The deduplication core of `detect_payments`: the online pass over the
post-NMS detection stream, then — whenever any raw event was logged — the
merge pass recomputes the per-kind counts and the `payment_type` label from
the earliest surviving event (lines 204–229). -/
def detect_payments_core (dets : List RawDet) : PayResult :=
  let st := dets.foldl detect_payments_step initPayState
  if st.payment_events = [] then
    ⟨st.cash_payments + st.card_payments, st.cash_payments, st.card_payments,
     st.payment_type, []⟩
  else
    let filtered := filtered_events st.payment_events
    let cash := (filtered.filter fun e => e.kind == PayKind.cash).length
    let card := (filtered.filter fun e => e.kind == PayKind.card).length
    let label : Option PayKind :=
      match earliest_event filtered with
      | some first_event => some first_event.kind
      | none => st.payment_type
    ⟨cash + card, cash, card, label, filtered⟩

/-! ### Scenario 3 (claim C2) -/

/-- Scenario 3 input: 50 raw cash detections, one per frame at frames 0–49,
whose centers — an 8×7 grid of adjacent pixels — all lie within a 20 px
radius of each other; confidence 0.5 throughout. -/
def c2Dets : List RawDet :=
  (List.range 50).map fun i =>
    ⟨1, i, mkRat 1 2, ((i % 8 : ℕ) : ℤ), ((i / 8 : ℕ) : ℤ),
     ((i % 8 : ℕ) : ℤ), ((i / 8 : ℕ) : ℤ)⟩

set_option maxRecDepth 40000 in
/-- Claim C2 is false as stated: on the Scenario 3 input the deduplicator does
not yield `cash_payments = 1` — events at frames 0 and 30 are 30 frames
apart, which the `< 30` merge window does not collapse. -/
theorem C2_counterexample : (detect_payments_core c2Dets).cash_payments ≠ 1 := by
  decide

set_option maxRecDepth 40000 in
/-- Claim C2, amended: on the Scenario 3 input (50 raw cash detections at
frames 0–49 with centers within a 20 px radius) the deduplicator yields
`cash_payments = 2`, the surviving events being those at frames 0 and 30. -/
theorem C2_cash_payments_two :
    (detect_payments_core c2Dets).cash_payments = 2 ∧
    (detect_payments_core c2Dets).surviving_events.map PayEvent.frame = [0, 30] := by
  decide

/-! ### The payment label comes from the earliest surviving event (claim C7) -/

lemma foldl_min_frame (rest : List PayEvent) (b : PayEvent) :
    (rest.foldl (fun best x => if x.frame < best.frame then x else best) b = b ∨
      rest.foldl (fun best x => if x.frame < best.frame then x else best) b ∈ rest) ∧
    (rest.foldl (fun best x => if x.frame < best.frame then x else best) b).frame ≤ b.frame ∧
    ∀ x ∈ rest,
      (rest.foldl (fun best x => if x.frame < best.frame then x else best) b).frame
        ≤ x.frame := by
  induction rest generalizing b with
  | nil => exact ⟨Or.inl rfl, le_refl _, by simp⟩
  | cons y rest ih =>
      simp only [List.foldl_cons]
      by_cases hy : y.frame < b.frame
      · rw [if_pos hy]
        rcases ih y with ⟨hm, hf, hall⟩
        refine ⟨?_, le_trans hf (le_of_lt hy), ?_⟩
        · rcases hm with h1 | h1
          · exact Or.inr (by rw [h1]; exact List.mem_cons_self _ _)
          · exact Or.inr (List.mem_cons_of_mem _ h1)
        · intro z hz
          rcases List.mem_cons.mp hz with rfl | hz
          · exact hf
          · exact hall z hz
      · rw [if_neg hy]
        rcases ih b with ⟨hm, hf, hall⟩
        refine ⟨?_, hf, ?_⟩
        · rcases hm with h1 | h1
          · exact Or.inl h1
          · exact Or.inr (List.mem_cons_of_mem _ h1)
        · intro z hz
          rcases List.mem_cons.mp hz with rfl | hz
          · exact le_trans hf (not_lt.mp hy)
          · exact hall z hz

lemma earliest_event_spec (events : List PayEvent) (e : PayEvent)
    (h : earliest_event events = some e) :
    e ∈ events ∧ ∀ x ∈ events, e.frame ≤ x.frame := by
  cases events with
  | nil => simp [earliest_event] at h
  | cons b rest =>
      rw [earliest_event, Option.some_inj] at h
      rcases foldl_min_frame rest b with ⟨hm, hf, hall⟩
      subst h
      constructor
      · rcases hm with h1 | h1
        · exact (by rw [h1]; exact List.mem_cons_self _ _)
        · exact List.mem_cons_of_mem _ h1
      · intro x hx
        rcases List.mem_cons.mp hx with rfl | hx
        · exact hf
        · exact hall x hx

lemma earliest_event_isSome (events : List PayEvent) (h : events ≠ []) :
    (earliest_event events).isSome := by
  cases events with
  | nil => exact absurd rfl h
  | cons b rest => rfl

/-- Claim C7: whenever the set of surviving payment events after the offline
merge pass is non-empty, the reported `payment_type` label equals the kind of
the surviving event with the smallest frame index (the online pass's
first-raw-detection label is overwritten). -/
theorem C7_payment_type_label (dets : List RawDet)
    (h : (detect_payments_core dets).surviving_events ≠ []) :
    ∃ e ∈ (detect_payments_core dets).surviving_events,
      (detect_payments_core dets).payment_type = some e.kind ∧
      ∀ x ∈ (detect_payments_core dets).surviving_events, e.frame ≤ x.frame := by
  unfold detect_payments_core at h ⊢
  by_cases hev : (dets.foldl detect_payments_step initPayState).payment_events = []
  · rw [if_pos hev] at h
    exact absurd rfl h
  · rw [if_neg hev] at h ⊢
    dsimp only at h ⊢
    cases hee : earliest_event
        (filtered_events (dets.foldl detect_payments_step initPayState).payment_events) with
    | none =>
        have := earliest_event_isSome
          (filtered_events (dets.foldl detect_payments_step initPayState).payment_events) h
        rw [hee] at this
        exact absurd this (by simp)
    | some e =>
        rcases earliest_event_spec _ e hee with ⟨hmem, hall⟩
        exact ⟨e, hmem, rfl, hall⟩

def c7Dets : List RawDet :=
  [⟨2, 5, mkRat 1 2, 0, 0, 0, 0⟩, ⟨1, 40, mkRat 1 2, 400, 400, 400, 400⟩]

/-- Witness for `C7_payment_type_label`: a card event at frame 5 and a cash
event at frame 40 both survive, and the label is the earliest one's kind. -/
theorem C7_payment_type_label_witness :
    ∃ e ∈ (detect_payments_core c7Dets).surviving_events,
      (detect_payments_core c7Dets).payment_type = some e.kind ∧
      ∀ x ∈ (detect_payments_core c7Dets).surviving_events, e.frame ≤ x.frame :=
  C7_payment_type_label c7Dets (by decide)

/-! ### The online continuation rule (claim C9) -/

lemma lookupKey_map_replace {α β : Type} [DecidableEq α] (l : List (α × β))
    (k : α) (v : β) :
    lookupKey (l.map fun kv => if kv.1 = k then (k, v) else kv) k
      = if (lookupKey l k).isSome then some v else none := by
  induction l with
  | nil => simp [lookupKey]
  | cons kv rest ih =>
      by_cases h : kv.1 = k
      · simp [lookupKey, h]
      · simp only [List.map_cons, lookupKey, if_neg h, ih]

lemma lookupKey_append_self {α β : Type} [DecidableEq α] (l : List (α × β))
    (k : α) (v : β) (h : lookupKey l k = none) :
    lookupKey (l ++ [(k, v)]) k = some v := by
  induction l with
  | nil => simp [lookupKey]
  | cons kv rest ih =>
      by_cases hh : kv.1 = k
      · rw [lookupKey, if_pos hh] at h
        exact absurd h (by simp)
      · rw [lookupKey, if_neg hh] at h
        rw [List.cons_append, lookupKey, if_neg hh]
        exact ih h

lemma lookupKey_dictInsert {α β : Type} [DecidableEq α] (l : List (α × β))
    (k : α) (v : β) : lookupKey (dictInsert l k v) k = some v := by
  unfold dictInsert
  by_cases h : (lookupKey l k).isSome
  · rw [if_pos h, lookupKey_map_replace, if_pos h]
  · rw [if_neg h]
    exact lookupKey_append_self l k v (Option.not_isSome_iff_eq_none.mp h)

/-- Claim C9: in the online rule of the deduplicator, a detection dropped as a
continuation of a tracked centroid (same class, frame gap below 15,
confidence difference below 0.1) leaves the state — centroid index, counters,
events, flags — completely unchanged; and a detection at the same exact
center whose gap since the last registered detection is 15 frames or more
registers a new raw event and re-anchors the window at itself. -/
theorem C9_online_window (st : PayState) (d : RawDet) (prev : ℕ × ℕ × ℚ)
    (hcls : d.cls_id = 1 ∨ d.cls_id = 2)
    (hconf : ¬ d.confidence < mkRat 2 5)
    (hlook : lookupKey st.tracked_centroids d.center = some prev)
    (hsame : prev.1 = d.cls_id) :
    ((d.frame : ℤ) - (prev.2.1 : ℤ) < 15 → |d.confidence - prev.2.2| < mkRat 1 10 →
      detect_payments_step st d = st) ∧
    (15 ≤ (d.frame : ℤ) - (prev.2.1 : ℤ) →
      (detect_payments_step st d).payment_events
        = st.payment_events ++
          [⟨if d.cls_id = 1 then PayKind.cash else PayKind.card,
            d.frame, d.confidence, d.center⟩] ∧
      lookupKey (detect_payments_step st d).tracked_centroids d.center
        = some (d.cls_id, d.frame, d.confidence) ∧
      (detect_payments_step st d).cash_payments + (detect_payments_step st d).card_payments
        = st.cash_payments + st.card_payments + 1) := by
  have hgate : ¬ (d.cls_id ∉ ([1, 2] : List ℕ) ∨ d.confidence < mkRat 2 5) := by
    push_neg
    refine ⟨?_, not_lt.mp hconf⟩
    rcases hcls with h | h <;> simp [h]
  constructor
  · intro h1 h2
    unfold detect_payments_step
    rw [if_neg hgate, hlook]
    dsimp only
    rw [if_pos ⟨hsame, h1, h2⟩]
  · intro h15
    have hcond : ¬ (prev.1 = d.cls_id ∧ (d.frame : ℤ) - (prev.2.1 : ℤ) < 15 ∧
        |d.confidence - prev.2.2| < mkRat 1 10) := by
      rintro ⟨-, hlt, -⟩
      omega
    unfold detect_payments_step
    rw [if_neg hgate, hlook]
    dsimp only
    rw [if_neg hcond]
    rcases hcls with h | h
    · rw [h]
      exact ⟨by simp, by simpa using lookupKey_dictInsert _ _ _, by simp; try omega⟩
    · have h1 : d.cls_id ≠ 1 := by omega
      rw [if_neg h1, if_neg h1]
      exact ⟨by simp, by simpa using lookupKey_dictInsert _ _ _, by simp; try omega⟩

def c9State : PayState := ⟨none, false, false, 0, 0, [((0, 0), (1, 5, mkRat 1 2))], []⟩

def c9Det : RawDet := ⟨1, 10, mkRat 1 2, 0, 0, 0, 0⟩

/-- Witness for `C9_online_window`: a cash detection at the tracked center,
5 frames after the registered one at equal confidence, is dropped and leaves
the state unchanged. -/
theorem C9_online_window_witness : detect_payments_step c9State c9Det = c9State :=
  (C9_online_window c9State c9Det (1, 5, mkRat 1 2) (Or.inl rfl) (by decide)
      (by decide) rfl).1 (by decide)
    (by
      show |mkRat 1 2 - mkRat 1 2| < mkRat 1 10
      rw [sub_self, abs_zero]
      decide)

/-! ## Cross-session matcher (src/identification_logic.py,
src/mixed_detection_logic.py) -/

/-- One person folder on disk: an identity token and its stored reference
images (image contents are embedded as abstract ids fed to the similarity
oracle). -/
structure PersonDir where
  pid : ℕ
  images : List ℕ
deriving DecidableEq, Repr

/-- One session folder: the people stored under `Detected people/<sid>` and
under `Identified people/<sid>`. -/
structure SessionDir where
  sid : ℕ
  detected : List PersonDir
  identified : List PersonDir
deriving DecidableEq, Repr

/-- The reference library scanned by `identify_persons` (lines 147–158): every
stored image of every person of every session under `Detected people`, in
directory order, paired with its identity token. -/
def identify_refs (fs : List SessionDir) : List (ℕ × ℕ) :=
  fs.bind fun s => s.detected.bind fun p => p.images.map fun img => (p.pid, img)

/-- Loop body of the similarity scan (identify mode lines 152–158, mixed mode
lines 209–221): the running best is replaced exactly when the score strictly
exceeds both the current best and the threshold; an unreadable image (`None`
from `load_image`, or an exception in the comparison) is skipped.  `sim` is
the similarity oracle `ssim(new_img, stored_img)[0]` for the current crop. -/
def best_known_match_step {α : Type} (sim : ℕ → Option ℚ) (threshold : ℚ)
    (acc : Option α × ℚ) (ref : α × ℕ) : Option α × ℚ :=
  match sim ref.2 with
  | none => acc
  | some similarity =>
      if similarity > acc.2 ∧ similarity > threshold then (some ref.1, similarity)
      else acc

/-- The similarity scan: fold over the flattened reference list starting from
`best_known_match_id = None`, `best_similarity = 0`. -/
def best_known_match {α : Type} (sim : ℕ → Option ℚ) (threshold : ℚ)
    (refs : List (α × ℕ)) : Option α × ℚ :=
  refs.foldl (best_known_match_step sim threshold) (none, 0)

/-- The identify-mode scan of `identify_persons` (lines 144–158): the
detected-people library of all sessions, threshold 0.7 (`mkRat 7 10`). -/
def identify_best_match (fs : List SessionDir) (sim : ℕ → Option ℚ) :
    Option ℕ × ℚ :=
  best_known_match sim (mkRat 7 10) (identify_refs fs)

/-- The two key prefixes of mixed mode's `known_faces`: `f"detected_{pid}"`
and `f"identified_{pid}"`. -/
inductive RefTag where
  | detected
  | identified
deriving DecidableEq, Repr

abbrev KnownKey := RefTag × ℕ

/-- Adding one batch of person folders to `known_faces` (mixed mode
lines 136–153): an entry is added only when `if images:` is non-empty. -/
def add_person_dirs (tag : RefTag) (ps : List PersonDir)
    (kf : List (KnownKey × List ℕ)) : List (KnownKey × List ℕ) :=
  ps.foldl
    (fun kf p => if p.images ≠ [] then dictInsert kf (tag, p.pid) p.images else kf)
    kf

/-- Loading one prior session into `known_faces` (lines 131–153): first its
detected people, then its identified people. -/
def add_session (kf : List (KnownKey × List ℕ)) (s : SessionDir) :
    List (KnownKey × List ℕ) :=
  add_person_dirs RefTag.identified s.identified
    (add_person_dirs RefTag.detected s.detected kf)

/-- `known_faces` of `mixed_detection_identification` (lines 110–155): every
existing session other than the current one contributes its detected and its
identified people. -/
def mixed_known_faces (fs : List SessionDir) (current : ℕ) :
    List (KnownKey × List ℕ) :=
  (fs.filter fun s => s.sid ≠ current).foldl add_session []

/-- The reference pairs the mixed-mode scan iterates over (lines 209–210):
every stored image of every `known_faces` entry. -/
def known_refs (kf : List (KnownKey × List ℕ)) : List (KnownKey × ℕ) :=
  kf.bind fun kv => kv.2.map fun img => (kv.1, img)

def mixed_refs (fs : List SessionDir) (current : ℕ) : List (KnownKey × ℕ) :=
  known_refs (mixed_known_faces fs current)

/-- The mixed-mode scan (lines 204–221), with the threshold lowered to 0.5
(`mkRat 1 2`). -/
def mixed_best_match (fs : List SessionDir) (current : ℕ) (sim : ℕ → Option ℚ) :
    Option KnownKey × ℚ :=
  best_known_match sim (mkRat 1 2) (mixed_refs fs current)

/-! ### The exact-threshold boundary (claim C3) -/

lemma best_known_match_no_update {α : Type} (sim : ℕ → Option ℚ) (threshold : ℚ)
    (refs : List (α × ℕ)) (acc : Option α × ℚ)
    (h : ∀ key img, (key, img) ∈ refs → ∀ s, sim img = some s → ¬ threshold < s) :
    refs.foldl (best_known_match_step sim threshold) acc = acc := by
  induction refs generalizing acc with
  | nil => rfl
  | cons r rest ih =>
      rw [List.foldl_cons]
      have hstep : best_known_match_step sim threshold acc r = acc := by
        unfold best_known_match_step
        cases hs : sim r.2 with
        | none => rfl
        | some s =>
            dsimp only
            rw [if_neg]
            rintro ⟨-, hgt⟩
            exact h r.1 r.2 (List.mem_cons_self _ _) s hs hgt
      rw [hstep]
      exact ih acc fun key img hm s hs => h key img (List.mem_cons_of_mem _ hm) s hs

lemma best_known_match_isSome_mono {α : Type} (sim : ℕ → Option ℚ) (threshold : ℚ)
    (refs : List (α × ℕ)) (acc : Option α × ℚ) (h : acc.1.isSome) :
    (refs.foldl (best_known_match_step sim threshold) acc).1.isSome := by
  induction refs generalizing acc with
  | nil => exact h
  | cons r rest ih =>
      rw [List.foldl_cons]
      apply ih
      unfold best_known_match_step
      cases sim r.2 with
      | none => exact h
      | some s =>
          dsimp only
          split
          · rfl
          · exact h

/-- A single prior session holding one detected person (token 5) with one
stored image. -/
def c3FS : List SessionDir := [⟨0, [⟨5, [100]⟩], []⟩]

/-- Claim C3 is false as stated: mixed mode also performs cross-session
matching, but with threshold 0.5, so a crop whose similarity to every stored
reference image is exactly 0.7 IS assigned a known identity there. -/
theorem C3_counterexample :
    (mixed_best_match c3FS 1 fun _ => some (mkRat 7 10)).1
      = some (RefTag.detected, 5) := by
  decide

/-- Claim C3, amended: in pure identify mode a crop whose similarity to every
stored reference image is exactly the threshold 0.7 is never assigned an
identity (the comparison is strict); in mixed mode the threshold is lowered
to 0.5, so a score of exactly 0.7 does match as soon as the reference list is
non-empty. -/
theorem C3_threshold_boundary (fs : List SessionDir) (cur : ℕ)
    (sim : ℕ → Option ℚ)
    (hid : ∀ pid img, (pid, img) ∈ identify_refs fs → sim img = some (mkRat 7 10))
    (hmx : ∀ key img, (key, img) ∈ mixed_refs fs cur → sim img = some (mkRat 7 10)) :
    (identify_best_match fs sim).1 = none ∧
    (mixed_refs fs cur ≠ [] → (mixed_best_match fs cur sim).1 ≠ none) := by
  constructor
  · unfold identify_best_match best_known_match
    rw [best_known_match_no_update]
    intro pid img hm s hs
    rw [hid pid img hm, Option.some_inj] at hs
    rw [← hs]
    exact lt_irrefl _
  · intro hne
    unfold mixed_best_match best_known_match
    cases hrefs : mixed_refs fs cur with
    | nil => exact absurd hrefs hne
    | cons r rest =>
        rw [List.foldl_cons]
        have hstep : best_known_match_step sim (mkRat 1 2) (none, 0) r
            = (some r.1, mkRat 7 10) := by
          unfold best_known_match_step
          rw [hmx r.1 r.2 (hrefs ▸ List.mem_cons_self _ _)]
          dsimp only
          rw [if_pos ⟨by decide, by decide⟩]
        rw [hstep]
        intro hcontra
        have := best_known_match_isSome_mono sim (mkRat 1 2) rest
          (some r.1, mkRat 7 10) rfl
        rw [hcontra] at this
        exact absurd this (by simp)

/-- Witness for `C3_threshold_boundary` on the concrete one-image library. -/
theorem C3_threshold_boundary_witness :
    (identify_best_match c3FS fun _ => some (mkRat 7 10)).1 = none ∧
    (mixed_best_match c3FS 1 fun _ => some (mkRat 7 10)).1 ≠ none :=
  ⟨(C3_threshold_boundary c3FS 1 (fun _ => some (mkRat 7 10))
      (fun _ _ _ => rfl) (fun _ _ _ => rfl)).1,
   (C3_threshold_boundary c3FS 1 (fun _ => some (mkRat 7 10))
      (fun _ _ _ => rfl) (fun _ _ _ => rfl)).2 (by decide)⟩

/-! ### Detected tokens are eligible match targets (claim C5) -/

lemma best_known_match_stay {α : Type} (sim : ℕ → Option ℚ) (threshold : ℚ)
    (refs : List (α × ℕ)) (b : Option α) (v : ℚ)
    (h : ∀ key img, (key, img) ∈ refs → ∀ s, sim img = some s → s ≤ v) :
    refs.foldl (best_known_match_step sim threshold) (b, v) = (b, v) := by
  induction refs with
  | nil => rfl
  | cons r rest ih =>
      rw [List.foldl_cons]
      have hstep : best_known_match_step sim threshold (b, v) r = (b, v) := by
        unfold best_known_match_step
        cases hs : sim r.2 with
        | none => rfl
        | some s =>
            dsimp only
            rw [if_neg]
            rintro ⟨hgt, -⟩
            exact absurd hgt (not_lt.mpr (h r.1 r.2 (List.mem_cons_self _ _) s hs))
      rw [hstep]
      exact ih fun key img hm s hs => h key img (List.mem_cons_of_mem _ hm) s hs

lemma best_known_match_argmax {α : Type} (sim : ℕ → Option ℚ) (threshold : ℚ)
    (pid : α) (img : ℕ) (s : ℚ) (hs : sim img = some s) (hthr : threshold < s) :
    ∀ (refs : List (α × ℕ)) (b : Option α) (v : ℚ),
      (pid, img) ∈ refs → v < s →
      (∀ key img2, (key, img2) ∈ refs → (key, img2) ≠ (pid, img) →
        ∀ s2, sim img2 = some s2 → s2 < s) →
      refs.foldl (best_known_match_step sim threshold) (b, v) = (some pid, s) := by
  intro refs
  induction refs with
  | nil =>
      intro b v hm
      exact absurd hm (List.not_mem_nil _)
  | cons r rest ih =>
      intro b v hm hv hother
      rw [List.foldl_cons]
      by_cases hr : r = (pid, img)
      · have hstep : best_known_match_step sim threshold (b, v) r = (some pid, s) := by
          rw [hr]
          unfold best_known_match_step
          rw [hs]
          dsimp only
          rw [if_pos ⟨hv, hthr⟩]
        rw [hstep]
        apply best_known_match_stay
        intro key img2 hm2 s2 hs2
        by_cases h2 : (key, img2) = (pid, img)
        · have himg : img2 = img := congrArg Prod.snd h2
          rw [himg, hs, Option.some_inj] at hs2
          exact le_of_eq hs2.symm
        · exact le_of_lt (hother key img2 (List.mem_cons_of_mem _ hm2) h2 s2 hs2)
      · have hm2 : (pid, img) ∈ rest := by
          rcases List.mem_cons.mp hm with h1 | h1
          · exact absurd h1.symm hr
          · exact h1
        have hv2 : (best_known_match_step sim threshold (b, v) r).2 < s := by
          unfold best_known_match_step
          cases hsim : sim r.2 with
          | none => exact hv
          | some s2 =>
              dsimp only
              split
              · exact hother r.1 r.2 (List.mem_cons_self _ _) (fun hc => hr hc) s2 hsim
              · exact hv
        have hother2 : ∀ key img2, (key, img2) ∈ rest → (key, img2) ≠ (pid, img) →
            ∀ s2, sim img2 = some s2 → s2 < s :=
          fun key img2 hmm hne s2 hs2 =>
            hother key img2 (List.mem_cons_of_mem _ hmm) hne s2 hs2
        exact ih (best_known_match_step sim threshold (b, v) r).1
          (best_known_match_step sim threshold (b, v) r).2 hm2 hv2 hother2

lemma lookupKey_isSome_mem_keys {α β : Type} [DecidableEq α]
    (l : List (α × β)) (k : α) (h : (lookupKey l k).isSome) :
    k ∈ l.map Prod.fst := by
  induction l with
  | nil => exact absurd h (by simp [lookupKey])
  | cons kv rest ih =>
      rw [lookupKey] at h
      by_cases hk : kv.1 = k
      · rw [List.map_cons, hk]
        exact List.mem_cons_self _ _
      · rw [if_neg hk] at h
        exact List.mem_cons_of_mem _ (ih h)

lemma dictInsert_keys_mem_self {α β : Type} [DecidableEq α]
    (l : List (α × β)) (k : α) (v : β) :
    k ∈ (dictInsert l k v).map Prod.fst := by
  apply lookupKey_isSome_mem_keys
  rw [lookupKey_dictInsert]
  rfl

lemma dictInsert_keys_mem_mono {α β : Type} [DecidableEq α]
    (l : List (α × β)) (k k2 : α) (v : β) (h : k ∈ l.map Prod.fst) :
    k ∈ (dictInsert l k2 v).map Prod.fst := by
  unfold dictInsert
  by_cases hp : (lookupKey l k2).isSome
  · rw [if_pos hp]
    rcases List.mem_map.mp h with ⟨kv, hkv, hfst⟩
    apply List.mem_map.mpr
    by_cases hk : kv.1 = k2
    · exact ⟨(k2, v), List.mem_map.mpr ⟨kv, hkv, by rw [if_pos hk]⟩, by rw [← hfst, hk]⟩
    · exact ⟨kv, List.mem_map.mpr ⟨kv, hkv, by rw [if_neg hk]⟩, hfst⟩
  · rw [if_neg hp, List.map_append]
    exact List.mem_append_left _ h

lemma add_person_dirs_cons (tag : RefTag) (p : PersonDir) (ps : List PersonDir)
    (kf : List (KnownKey × List ℕ)) :
    add_person_dirs tag (p :: ps) kf
      = add_person_dirs tag ps
          (if p.images ≠ [] then dictInsert kf (tag, p.pid) p.images else kf) := by
  rfl

lemma add_person_dirs_keys_mono (tag : RefTag) (ps : List PersonDir)
    (kf : List (KnownKey × List ℕ)) (k : KnownKey) (h : k ∈ kf.map Prod.fst) :
    k ∈ (add_person_dirs tag ps kf).map Prod.fst := by
  induction ps generalizing kf with
  | nil => exact h
  | cons p rest ih =>
      rw [add_person_dirs_cons]
      apply ih
      by_cases hp : p.images ≠ []
      · rw [if_pos hp]
        exact dictInsert_keys_mem_mono _ _ _ _ h
      · rw [if_neg hp]
        exact h

lemma add_person_dirs_keys_self (tag : RefTag) (ps : List PersonDir)
    (kf : List (KnownKey × List ℕ)) (p : PersonDir) (hp : p ∈ ps)
    (hne : p.images ≠ []) :
    (tag, p.pid) ∈ (add_person_dirs tag ps kf).map Prod.fst := by
  induction ps generalizing kf with
  | nil => exact absurd hp (List.not_mem_nil _)
  | cons q rest ih =>
      rw [add_person_dirs_cons]
      rcases List.mem_cons.mp hp with rfl | hp2
      · apply add_person_dirs_keys_mono
        rw [if_pos hne]
        exact dictInsert_keys_mem_self _ _ _
      · exact ih _ hp2

lemma add_session_keys_mono (kf : List (KnownKey × List ℕ)) (s : SessionDir)
    (k : KnownKey) (h : k ∈ kf.map Prod.fst) :
    k ∈ (add_session kf s).map Prod.fst :=
  add_person_dirs_keys_mono _ _ _ _ (add_person_dirs_keys_mono _ _ _ _ h)

lemma foldl_add_session_keys_mono (L : List SessionDir)
    (kf : List (KnownKey × List ℕ)) (k : KnownKey) (h : k ∈ kf.map Prod.fst) :
    k ∈ (L.foldl add_session kf).map Prod.fst := by
  induction L generalizing kf with
  | nil => exact h
  | cons t rest ih =>
      rw [List.foldl_cons]
      exact ih _ (add_session_keys_mono kf t k h)

lemma foldl_add_session_keys_self (L : List SessionDir)
    (kf : List (KnownKey × List ℕ)) (sd : SessionDir) (hsd : sd ∈ L)
    (p : PersonDir) (hp : p ∈ sd.detected) (hne : p.images ≠ []) :
    (RefTag.detected, p.pid) ∈ (L.foldl add_session kf).map Prod.fst := by
  induction L generalizing kf with
  | nil => exact absurd hsd (List.not_mem_nil _)
  | cons t rest ih =>
      rw [List.foldl_cons]
      rcases List.mem_cons.mp hsd with rfl | h2
      · apply foldl_add_session_keys_mono
        exact add_person_dirs_keys_mono _ _ _ _
          (add_person_dirs_keys_self _ _ _ _ hp hne)
      · exact ih _ h2

/-- Claim C5: the identify-mode scan runs over every stored reference image of
every token under `Detected people` of every session, so a token created as
`detected` in any prior session is eligible as the match target — whenever one
of its stored images scores above the 0.7 threshold and strictly above every
other stored image, the scan returns exactly that token; and in mixed mode
every detected token of every prior session appears among the scanned
`known_faces` keys. -/
theorem C5_detected_tokens_eligible (fs : List SessionDir) (cur : ℕ)
    (sim : ℕ → Option ℚ) (pid img : ℕ) (s : ℚ)
    (hstored : (pid, img) ∈ identify_refs fs)
    (hsim : sim img = some s) (hthr : mkRat 7 10 < s)
    (hmax : ∀ pid2 img2, (pid2, img2) ∈ identify_refs fs →
      (pid2, img2) ≠ (pid, img) → ∀ s2, sim img2 = some s2 → s2 < s) :
    identify_best_match fs sim = (some pid, s) ∧
    (∀ sd ∈ fs, sd.sid ≠ cur → ∀ p ∈ sd.detected, p.images ≠ [] →
      (RefTag.detected, p.pid) ∈ (mixed_known_faces fs cur).map Prod.fst) := by
  constructor
  · unfold identify_best_match best_known_match
    exact best_known_match_argmax sim (mkRat 7 10) pid img s hsim hthr
      (identify_refs fs) none 0 hstored
      (lt_trans (by decide) hthr) hmax
  · intro sd hsd hcur p hp hne
    unfold mixed_known_faces
    apply foldl_add_session_keys_self _ _ sd _ p hp hne
    rw [List.mem_filter]
    exact ⟨hsd, by simpa using hcur⟩

/-- Two prior sessions, each holding one detected person. -/
def c5FS : List SessionDir :=
  [⟨0, [⟨5, [100, 101]⟩], []⟩, ⟨2, [⟨7, [200]⟩], []⟩]

def c5Sim : ℕ → Option ℚ :=
  fun i => if i = 100 then some (mkRat 9 10) else some (mkRat 1 10)

/-- Witness for `C5_detected_tokens_eligible`: token 5's image 100 scores 0.9
and every other stored image 0.1, so the identify scan returns token 5; and
token 7 from prior session 2 is a key of the mixed-mode library. -/
theorem C5_detected_tokens_eligible_witness :
    identify_best_match c5FS c5Sim = (some 5, mkRat 9 10) ∧
    (RefTag.detected, 7) ∈ (mixed_known_faces c5FS 1).map Prod.fst := by
  have hmax : ∀ pid2 img2, (pid2, img2) ∈ identify_refs c5FS →
      (pid2, img2) ≠ (5, 100) → ∀ s2, c5Sim img2 = some s2 → s2 < mkRat 9 10 := by
    intro pid2 img2 hm hne s2 hs2
    have hrefs : identify_refs c5FS = [(5, 100), (5, 101), (7, 200)] := rfl
    rw [hrefs] at hm
    simp only [List.mem_cons, List.not_mem_nil, or_false, Prod.mk.injEq] at hm
    rcases hm with ⟨rfl, rfl⟩ | ⟨rfl, rfl⟩ | ⟨rfl, rfl⟩
    · exact absurd rfl hne
    · rw [show c5Sim 101 = some (mkRat 1 10) from rfl, Option.some_inj] at hs2
      rw [← hs2]
      decide
    · rw [show c5Sim 200 = some (mkRat 1 10) from rfl, Option.some_inj] at hs2
      rw [← hs2]
      decide
  have hthm := C5_detected_tokens_eligible c5FS 1 c5Sim 5 100 (mkRat 9 10)
    (by decide) rfl (by decide) hmax
  exact ⟨hthm.1, hthm.2 ⟨2, [⟨7, [200]⟩], []⟩ (by decide) (by decide)
    ⟨7, [200]⟩ (by decide) (by decide)⟩

/-! ### Identify mode on an empty reference library (claim C6) -/

/-- A person-class detection in identify mode: the bounding box and the head
crop (an abstract image id fed to the similarity oracle). -/
structure IdDetection where
  box : Box
  crop : ℕ
deriving DecidableEq, Repr

/-- Per-detection body of `identify_persons` (lines 128–184): run the
similarity scan over the detected-people library; on a match create or update
the registry entry under the matched token (lines 160–182); otherwise
`continue` — the detection is skipped entirely (line 184).  `sim crop img` is
the score of the current crop against stored image `img`. -/
def identify_persons_step (fs : List SessionDir) (sim : ℕ → ℕ → Option ℚ)
    (frame_counter : ℕ) (registry : TrackRegistry) (d : IdDetection) :
    TrackRegistry :=
  match (identify_best_match fs (sim d.crop)).1 with
  | some person_id =>
      if (lookupKey registry person_id).isSome then
        update_track registry person_id d.box frame_counter
      else registry ++ [(person_id, ⟨d.box, 1, frame_counter⟩)]
  | none => registry

/-- The frame loop of `identify_persons`: per frame, the person-class
detections of that frame; `frame_counter` increments once per frame. -/
def identify_persons_frames (fs : List SessionDir) (sim : ℕ → ℕ → Option ℚ)
    (frames : List (List IdDetection)) : TrackRegistry :=
  (frames.foldl
    (fun (acc : TrackRegistry × ℕ) frame_dets =>
      (frame_dets.foldl (fun reg d => identify_persons_step fs sim acc.2 reg d) acc.1,
       acc.2 + 1))
    ([], 0)).1

lemma foldl_fixed_of_step {α β : Type} (f : α → β → α) (hf : ∀ a b, f a b = a) :
    ∀ (l : List β) (a : α), l.foldl f a = a := by
  intro l
  induction l with
  | nil => intro a; rfl
  | cons x rest ih =>
      intro a
      rw [List.foldl_cons, hf]
      exact ih a

/-- Claim C6: with an empty reference library, no detection ever matches in
pure identify mode — every per-detection step leaves the registry unchanged
(the detection is skipped), so over every input frame sequence the person
registry stays empty and no identity is ever minted. -/
theorem C6_empty_library (fs : List SessionDir) (sim : ℕ → ℕ → Option ℚ)
    (frames : List (List IdDetection)) (hempty : identify_refs fs = []) :
    identify_persons_frames fs sim frames = [] := by
  have hstep : ∀ fc (reg : TrackRegistry) d,
      identify_persons_step fs sim fc reg d = reg := by
    intro fc reg d
    unfold identify_persons_step identify_best_match best_known_match
    rw [hempty]
    rfl
  unfold identify_persons_frames
  have houter : ∀ (frames : List (List IdDetection)) (acc : TrackRegistry × ℕ),
      (frames.foldl
        (fun (acc : TrackRegistry × ℕ) frame_dets =>
          (frame_dets.foldl (fun reg d => identify_persons_step fs sim acc.2 reg d) acc.1,
           acc.2 + 1))
        acc).1 = acc.1 := by
    intro frames
    induction frames with
    | nil => intro acc; rfl
    | cons fd rest ih =>
        intro acc
        rw [List.foldl_cons]
        rw [ih]
        exact foldl_fixed_of_step _ (fun reg d => hstep acc.2 reg d) fd acc.1
  exact houter frames ([], 0)

/-- A store whose `Detected people` directories are all empty (one session has
identified people only), a constant perfect-similarity oracle, one frame with
one detection. -/
theorem C6_empty_library_witness :
    identify_persons_frames [⟨0, [], [⟨3, [50]⟩]⟩] (fun _ _ => some 1)
      [[⟨⟨0, 0, 10, 10⟩, 42⟩]] = [] :=
  C6_empty_library [⟨0, [], [⟨3, [50]⟩]⟩] (fun _ _ => some 1)
    [[⟨⟨0, 0, 10, 10⟩, 42⟩]] rfl

/-! ## Session start on a bad video source (claim C8) -/

/-- What the two entry checks of `detect_payments` can observe about a video
source: whether `cv2.VideoCapture(path).isOpened()` holds and the frame count
`cap.get(cv2.CAP_PROP_FRAME_COUNT)`.  A corrupt source is not opened; a
zero-length source reports 0 frames. -/
structure VideoSource where
  opened : Bool
  total_frames : ℕ
deriving DecidableEq, Repr

/-- `detect_payments` around its frame loop (lines 53–66): refuse an unopened
capture, then refuse `total_frames == 0`, both with an error result
(`return None`) before any frame is read; otherwise run the deduplication
core over the frame stream. -/
def detect_payments_run (src : VideoSource) (dets : List RawDet) :
    Option PayResult :=
  if ¬ src.opened = true then none
  else if src.total_frames = 0 then none
  else some (detect_payments_core dets)

/-- What `detect_persons` leaves behind: the final registry, how many frames
the loop consumed, and whether the function reached its completion path (it
always does when not stopped by the user — the source has no error return for
a bad capture). -/
structure DetectOutcome where
  registry : TrackRegistry
  frames_processed : ℕ
  completed : Bool
deriving DecidableEq, Repr

/-- `detect_persons` around its frame loop (lines 99–235): there is no
`isOpened` / frame-count error check — `while cap.isOpened()` simply never
iterates for a corrupt source (and `cap.read()` fails at once for an empty
one), after which execution falls through to the completion path. -/
def detect_persons_run (cfg : TrackerConfig) (src : VideoSource)
    (frames : List (List Box)) : DetectOutcome :=
  if src.opened = true then
    ⟨(detect_persons_frames cfg frames).registry, frames.length, true⟩
  else
    ⟨[], 0, true⟩

/-- Claim C8 is false as stated: in detect mode a corrupt (unopened) video
source does not fail at session start — `detect_persons` runs to its normal
completion path with an empty registry and zero frames consumed, returning no
error result, while payment mode does return the error result `none`. -/
theorem C8_counterexample :
    detect_persons_run defaultTrackerConfig ⟨false, 0⟩ [] = ⟨[], 0, true⟩ ∧
    detect_payments_run ⟨false, 0⟩ [] = none := by
  decide

/-- Claim C8, amended: for every corrupt or zero-length video source, payment
mode fails before its frame loop — the open/frame-count checks return the
error result `none` with no frame consumed; but detect mode has no such
check: on a corrupt source it consumes no frame yet still reaches its normal
completion path with an empty registry. -/
theorem C8_bad_source (src : VideoSource) (dets : List RawDet)
    (frames : List (List Box)) (cfg : TrackerConfig)
    (hbad : src.opened = false ∨ src.total_frames = 0) :
    detect_payments_run src dets = none ∧
    (src.opened = false →
      detect_persons_run cfg src frames = ⟨[], 0, true⟩) := by
  constructor
  · unfold detect_payments_run
    rcases hbad with h | h
    · rw [if_pos]
      rw [h]
      simp
    · by_cases hop : src.opened = true
      · rw [if_neg (by rw [hop]; simp), if_pos h]
      · rw [if_pos hop]
  · intro h
    unfold detect_persons_run
    rw [if_neg (by rw [h]; simp)]

/-- Witness for `C8_bad_source` at a concrete corrupt source. -/
theorem C8_bad_source_witness :
    detect_payments_run ⟨false, 7⟩ [] = none ∧
    (detect_persons_run defaultTrackerConfig ⟨false, 7⟩ [[⟨0, 0, 4, 4⟩]]
      = ⟨[], 0, true⟩) :=
  ⟨(C8_bad_source ⟨false, 7⟩ [] [[⟨0, 0, 4, 4⟩]] defaultTrackerConfig
      (Or.inl rfl)).1,
   (C8_bad_source ⟨false, 7⟩ [] [[⟨0, 0, 4, 4⟩]] defaultTrackerConfig
      (Or.inl rfl)).2 rfl⟩

/-! ## Mixed-mode registry (src/mixed_detection_logic.py, claim C10) -/

/-- `box_distance` of mixed mode (lines 75–79): centers by Python integer
floor division `// 2`, then the square root of the sum of squares; we carry
the squared value (square root is strictly monotone), so the 50 px threshold
becomes 2500. -/
def mixed_box_distance_sq (box1 box2 : Box) : ℤ :=
  let c1 := ((box1.x1 + box1.x2).fdiv 2, (box1.y1 + box1.y2).fdiv 2)
  let c2 := ((box2.x1 + box2.x2).fdiv 2, (box2.y1 + box2.y2).fdiv 2)
  (c1.1 - c2.1) * (c1.1 - c2.1) + (c1.2 - c2.2) * (c1.2 - c2.2)

/-- The `"type"` tag of a mixed-mode registry entry: `"new"` or
`"existing"`. -/
inductive PersonType where
  | new
  | existing
deriving DecidableEq, Repr

/-- One entry of mixed mode's `person_registry` (line 100); `ptype` embeds the
`"type"` field. -/
structure MixedEntry where
  box : Box
  frame_count : ℕ
  last_seen : ℕ
  ptype : PersonType
deriving DecidableEq, Repr

/-- Registry keys of mixed mode: a similarity match stores the `known_faces`
key (left), a fresh detection a generated person id (right). -/
abbrev MixedId := KnownKey ⊕ ℕ

abbrev MixedRegistry := List (MixedId × MixedEntry)

/-- Update of an already tracked entry (lines 246–250 / 270–273): new box,
incremented count, refreshed `last_seen`; the `"type"` field is not
written. -/
def update_mixed (registry : MixedRegistry) (person_id : MixedId) (b : Box)
    (frame_counter : ℕ) : MixedRegistry :=
  registry.map fun pe =>
    if pe.1 = person_id then
      (pe.1,
       { pe.2 with
         box := b
         frame_count := pe.2.frame_count + 1
         last_seen := frame_counter })
    else pe

/-- Loop body of the proximity scan of mixed mode (lines 257–263): only
entries with `data["type"] == "new"` participate; fixed 30-frame gap; strict
minimum as in detect mode. -/
def find_best_new_step (frame_counter : ℕ) (current_box : Box)
    (acc : Option (MixedId × ℤ)) (pe : MixedId × MixedEntry) :
    Option (MixedId × ℤ) :=
  if pe.2.ptype = PersonType.new then
    let distance := mixed_box_distance_sq current_box pe.2.box
    let gap_ok := (frame_counter : ℤ) - (pe.2.last_seen : ℤ) ≤ 30
    match acc with
    | none => if gap_ok then some (pe.1, distance) else none
    | some best =>
        if distance < best.2 ∧ gap_ok then some (pe.1, distance) else some best
  else acc

/-- The proximity scan of mixed mode (lines 253–263). -/
def find_best_new_track (frame_counter : ℕ) (current_box : Box)
    (registry : MixedRegistry) : Option (MixedId × ℤ) :=
  registry.foldl (find_best_new_step frame_counter current_box) none

structure MixedState where
  registry : MixedRegistry
  next_id : ℕ
deriving DecidableEq, Repr

/-- Per-detection body of `mixed_detection_identification` (lines 188–290):
similarity-match against `known_faces` at threshold 0.5; on a match create
(tagged `"existing"`) or update the entry under the matched key
(lines 229–250); otherwise proximity-track against `"new"` entries within
50 px and 30 frames, updating on success (lines 265–273) and creating a fresh
entry tagged `"new"` on failure (lines 274–288). -/
def mixed_step (kf : List (KnownKey × List ℕ)) (sim : ℕ → ℕ → Option ℚ)
    (frame_counter : ℕ) (st : MixedState) (d : IdDetection) : MixedState :=
  let create_new : MixedState :=
    { registry := st.registry ++
        [(Sum.inr st.next_id, ⟨d.box, 1, frame_counter, PersonType.new⟩)],
      next_id := st.next_id + 1 }
  match (best_known_match (sim d.crop) (mkRat 1 2) (known_refs kf)).1 with
  | some key =>
      if (lookupKey st.registry (Sum.inl key)).isSome then
        { st with registry :=
            update_mixed st.registry (Sum.inl key) d.box frame_counter }
      else
        { st with registry := st.registry ++
            [(Sum.inl key, ⟨d.box, 1, frame_counter, PersonType.existing⟩)] }
  | none =>
      match find_best_new_track frame_counter d.box st.registry with
      | some best =>
          if best.2 ≤ 2500 then
            { st with registry := update_mixed st.registry best.1 d.box frame_counter }
          else create_new
      | none => create_new

/-! ### Helper facts about lookups under the mixed-mode operations -/

lemma lookupKey_map_update {α β : Type} [DecidableEq α] (g : β → β) (pid : α) :
    ∀ (l : List (α × β)) (k2 : α),
      lookupKey (l.map fun kv => if kv.1 = pid then (kv.1, g kv.2) else kv) k2
        = if k2 = pid then (lookupKey l pid).map g else lookupKey l k2 := by
  intro l
  induction l with
  | nil =>
      intro k2
      by_cases h : k2 = pid <;> simp [lookupKey, h]
  | cons kv rest ih =>
      intro k2
      by_cases hk : kv.1 = pid
      · by_cases h2 : k2 = pid
        · subst h2
          simp [lookupKey, hk]
        · have h4 : kv.1 ≠ k2 := by
            rw [hk]
            exact fun hc => h2 hc.symm
          have h5 : pid ≠ k2 := fun hc => h2 hc.symm
          simp [lookupKey, hk, h2, h4, h5, ih]
      · by_cases h2 : k2 = pid
        · subst h2
          simp [lookupKey, hk, ih]
        · by_cases h3 : kv.1 = k2
          · simp [lookupKey, hk, h2, h3]
          · simp [lookupKey, hk, h2, h3, ih]

lemma lookupKey_append_of_isSome {α β : Type} [DecidableEq α]
    (l l2 : List (α × β)) (k : α) (h : (lookupKey l k).isSome) :
    lookupKey (l ++ l2) k = lookupKey l k := by
  induction l with
  | nil => exact absurd h (by simp [lookupKey])
  | cons kv rest ih =>
      rw [List.cons_append, lookupKey, lookupKey]
      by_cases hk : kv.1 = k
      · rw [if_pos hk, if_pos hk]
      · rw [if_neg hk, if_neg hk]
        rw [lookupKey, if_neg hk] at h
        exact ih h

lemma lookupKey_of_mem_nodup {α β : Type} [DecidableEq α]
    (l : List (α × β)) (k : α) (v : β) (hm : (k, v) ∈ l)
    (hnd : (l.map Prod.fst).Nodup) : lookupKey l k = some v := by
  induction l with
  | nil => exact absurd hm (List.not_mem_nil _)
  | cons kv rest ih =>
      rw [List.map_cons, List.nodup_cons] at hnd
      rcases List.mem_cons.mp hm with h | h
      · rw [← h, lookupKey, if_pos rfl]
      · have hk : kv.1 ≠ k := by
          intro hc
          exact hnd.1 (hc ▸ List.mem_map.mpr ⟨(k, v), h, rfl⟩)
        rw [lookupKey, if_neg hk]
        exact ih h hnd.2

lemma find_best_new_track_mem (frame_counter : ℕ) (current_box : Box) :
    ∀ (registry : MixedRegistry) (acc : Option (MixedId × ℤ)) (best : MixedId × ℤ),
      registry.foldl (find_best_new_step frame_counter current_box) acc = some best →
      acc = some best ∨
        ∃ e, (best.1, e) ∈ registry ∧ e.ptype = PersonType.new := by
  intro registry
  induction registry with
  | nil =>
      intro acc best h
      exact Or.inl h
  | cons pe rest ih =>
      intro acc best h
      rw [List.foldl_cons] at h
      rcases ih _ best h with h1 | ⟨e, hm, he⟩
      · by_cases hnew : pe.2.ptype = PersonType.new
        · unfold find_best_new_step at h1
          rw [if_pos hnew] at h1
          cases acc with
          | none =>
              dsimp only at h1
              split at h1
              · rw [Option.some_inj] at h1
                exact Or.inr ⟨pe.2, by rw [← h1]; exact List.mem_cons_self _ _, hnew⟩
              · exact absurd h1 (by simp)
          | some a =>
              dsimp only at h1
              split at h1
              · rw [Option.some_inj] at h1
                exact Or.inr ⟨pe.2, by rw [← h1]; exact List.mem_cons_self _ _, hnew⟩
              · exact Or.inl h1
        · unfold find_best_new_step at h1
          rw [if_neg hnew] at h1
          exact Or.inl h1
      · exact Or.inr ⟨e, List.mem_cons_of_mem _ hm, he⟩

lemma update_mixed_lookup (registry : MixedRegistry) (q : MixedId) (b : Box)
    (fc : ℕ) (k2 : MixedId) :
    lookupKey (update_mixed registry q b fc) k2
      = if k2 = q then
          (lookupKey registry q).map fun z =>
            { z with box := b, frame_count := z.frame_count + 1, last_seen := fc }
        else lookupKey registry k2 := by
  exact lookupKey_map_update
    (fun z : MixedEntry =>
      { z with box := b, frame_count := z.frame_count + 1, last_seen := fc })
    q registry k2

/-- Claim C10: in mixed mode the `"type"` tag of a registry entry is assigned
at creation and never modified by any later step; the proximity scan only
ever selects entries tagged `"new"`; and when the similarity scan returns no
match, an entry tagged `"existing"` is never extended — its appearance count
is untouched — so `"existing"` entries grow only through similarity
matches. -/
theorem C10_type_tag_invariant (kf : List (KnownKey × List ℕ))
    (sim : ℕ → ℕ → Option ℚ) (frame_counter : ℕ) (st : MixedState)
    (d : IdDetection) (pid : MixedId) (e : MixedEntry)
    (hnd : (st.registry.map Prod.fst).Nodup)
    (h : lookupKey st.registry pid = some e) :
    (∃ e2, lookupKey (mixed_step kf sim frame_counter st d).registry pid = some e2 ∧
      e2.ptype = e.ptype) ∧
    (∀ best, find_best_new_track frame_counter d.box st.registry = some best →
      ∃ e3, lookupKey st.registry best.1 = some e3 ∧ e3.ptype = PersonType.new) ∧
    ((best_known_match (sim d.crop) (mkRat 1 2) (known_refs kf)).1 = none →
      e.ptype = PersonType.existing →
      ∀ e4, lookupKey (mixed_step kf sim frame_counter st d).registry pid = some e4 →
        e4.frame_count = e.frame_count) := by
  have hupd : ∀ q, ∃ e2,
      lookupKey (update_mixed st.registry q d.box frame_counter) pid = some e2 ∧
      e2.ptype = e.ptype := by
    intro q
    rw [update_mixed_lookup]
    by_cases hq : pid = q
    · rw [if_pos hq, ← hq, h]
      exact ⟨_, rfl, rfl⟩
    · rw [if_neg hq, h]
      exact ⟨e, rfl, rfl⟩
  have happ : ∀ kv : MixedId × MixedEntry,
      lookupKey (st.registry ++ [kv]) pid = some e := by
    intro kv
    rw [lookupKey_append_of_isSome _ _ _ (by rw [h]; rfl), h]
  have hbest : ∀ best, find_best_new_track frame_counter d.box st.registry = some best →
      ∃ e3, lookupKey st.registry best.1 = some e3 ∧ e3.ptype = PersonType.new := by
    intro best hb
    rcases find_best_new_track_mem frame_counter d.box st.registry none best hb with
      h1 | ⟨e3, hm, he3⟩
    · exact absurd h1 (by simp)
    · exact ⟨e3, lookupKey_of_mem_nodup _ _ _ hm hnd, he3⟩
  refine ⟨?_, hbest, ?_⟩
  · unfold mixed_step
    cases hscan : (best_known_match (sim d.crop) (mkRat 1 2) (known_refs kf)).1 with
    | some key =>
        dsimp only
        by_cases hin : (lookupKey st.registry (Sum.inl key)).isSome
        · rw [if_pos hin]
          exact hupd _
        · rw [if_neg hin]
          exact ⟨e, happ _, rfl⟩
    | none =>
        dsimp only
        cases hbt : find_best_new_track frame_counter d.box st.registry with
        | some best =>
            dsimp only
            by_cases hdist : best.2 ≤ 2500
            · rw [if_pos hdist]
              exact hupd _
            · rw [if_neg hdist]
              exact ⟨e, happ _, rfl⟩
        | none => exact ⟨e, happ _, rfl⟩
  · intro hnone hex e4 h4
    unfold mixed_step at h4
    rw [hnone] at h4
    dsimp only at h4
    cases hbt : find_best_new_track frame_counter d.box st.registry with
    | none =>
        rw [hbt] at h4
        dsimp only at h4
        rw [happ _, Option.some_inj] at h4
        rw [← h4]
    | some best =>
        rw [hbt] at h4
        dsimp only at h4
        by_cases hdist : best.2 ≤ 2500
        · rw [if_pos hdist] at h4
          rw [update_mixed_lookup] at h4
          have hne : pid ≠ best.1 := by
            intro hc
            rcases hbest best hbt with ⟨e3, h3, he3⟩
            rw [← hc, h, Option.some_inj] at h3
            rw [← h3, hex] at he3
            exact PersonType.noConfusion he3
          rw [if_neg hne, h, Option.some_inj] at h4
          rw [← h4]
        · rw [if_neg hdist] at h4
          dsimp only at h4
          rw [happ _, Option.some_inj] at h4
          rw [← h4]

/-- A registry holding one entry under a similarity key, tagged
`"existing"`. -/
def c10State : MixedState :=
  ⟨[(Sum.inl (RefTag.detected, 5), ⟨⟨0, 0, 2, 2⟩, 3, 0, PersonType.existing⟩)], 0⟩

def c10Det : IdDetection := ⟨⟨100, 100, 102, 102⟩, 9⟩

/-- Witness for `C10_type_tag_invariant`: with an empty `known_faces` library
(the scan finds nothing) and a far-away detection, the existing-tagged entry
keeps its tag through the step. -/
theorem C10_type_tag_invariant_witness :
    ∃ e2, lookupKey (mixed_step [] (fun _ _ => none) 1 c10State c10Det).registry
        (Sum.inl (RefTag.detected, 5)) = some e2 ∧
      e2.ptype = PersonType.existing :=
  (C10_type_tag_invariant [] (fun _ _ => none) 1 c10State c10Det
    (Sum.inl (RefTag.detected, 5))
    ⟨⟨0, 0, 2, 2⟩, 3, 0, PersonType.existing⟩ (by decide) (by decide)).1

end AVAS
